import Mathlib

/-!
Verification of the Manage My Queue (MMQ) client-side queue engine.

The definitions below are a shallow embedding of the queue state and
reconciliation logic of the MMQ widget: task classification and ordering
(`activeTasksOf`, `holdTasksOf`, the TaskGroup display sort), the capacity
admission gate (`isPlayDisabled`, `handlePlayPause`), the staged reorder flow
(`handleDragEnd`, `handleApplyReorder`), the play and pause state patch
(`handleStatusUpdate`), the bounded polling controller (`usePolling`), and the
active-task counter (`countActiveTasks`).  JavaScript idioms are embedded
explicitly: `a || b` on numbers is `jsOrNat` (0 is falsy), `a || b` on possibly
absent strings is `jsOrStr` (absent and empty are falsy), `Array.prototype.sort`
with a numeric key comparator is the stable insertion sort `sortBy`,
`Array.prototype.findIndex` is the `Option`-valued `findIndex`, and the dnd-kit
`arrayMove` is `removeAt` followed by `insertAt` (JavaScript `splice` clamps an
out-of-range insertion index to the end).
-/

namespace MMQ

/-- A task of the queue, mirroring the `Task` record consumed by the widget:
the fields used by the queue logic (`task_id`, `status`, `active`,
`active_status`, `position`, `latest_due_date`, `status_pill_color`) plus the
advisory `name` and `total_time_tracked`.  `position` is absent for tasks that
never received a hold rank. -/
structure Task where
  task_id : String
  name : String
  status : String
  active : Bool
  active_status : Bool
  position : Option Nat
  latest_due_date : String
  status_pill_color : String
  total_time_tracked : Nat
deriving DecidableEq

/-- JavaScript `a || b` on numbers: 0 is falsy. -/
def jsOrNat (a b : Nat) : Nat := if a = 0 then b else a

/-- JavaScript `a || b` where `a` is a possibly absent string: both an absent
value and the empty string are falsy. -/
def jsOrStr (a : Option String) (b : String) : String :=
  match a with
  | none => b
  | some s => if s = "" then b else s

/-- JavaScript `String.prototype.toLowerCase` restricted to the ASCII range,
character by character. -/
def lowerStr (s : String) : String := String.mk (s.data.map Char.toLower)

/-- Constant `MIN_VISIBLE_TASKS`, re-exported by the services index from
`MMQ_DEFAULTS.minVisibleTasks = 10` in `mmq.config.ts`. -/
def MIN_VISIBLE_TASKS : Nat := 10

/-- Function `isTaskOnHold` of `taskUtils`: the status label compares equal to
the reserved string, case-insensitively. -/
def isTaskOnHold (t : Task) : Bool := lowerStr t.status == "on hold"

/-- Function `countActiveWorkingTasks` of `taskUtils`: tasks that are active
and not on hold, the count used for cap accounting. -/
def countActiveWorkingTasks (ts : List Task) : Nat :=
  (ts.filter (fun t => t.active && !(isTaskOnHold t))).length

/-- Configuration list `MMQ_ACTIVE_TASK_CONDITIONS.excludeStatuses`, empty in
`mmq.config.ts`. -/
def excludeStatuses : List String := []

/-- Function `countActiveTasks` of `activeTaskCounter.ts`: a task counts when
its `active_status` flag is truthy and its status is not in the configured
exclusion list (which is empty). -/
def countActiveTasks (ts : List Task) : Nat :=
  (ts.filter (fun t =>
    if !t.active_status then false
    else if (excludeStatuses.map lowerStr).contains (lowerStr t.status) then false
    else true)).length

/-- Stable insertion step: place `x` before the first element `y` with
`le x y`.  Together with `sortBy` this is exactly the behaviour of the stable
`Array.prototype.sort` on a consistent comparator. -/
def insertBy (le : α → α → Bool) (x : α) : List α → List α
  | [] => [x]
  | y :: ys => if le x y then x :: y :: ys else y :: insertBy le x ys

/-- Stable sort by the comparator `le`: elements comparing equal keep their
input order. -/
def sortBy (le : α → α → Bool) : List α → List α
  | [] => []
  | x :: xs => insertBy le x (sortBy le xs)

/-- Numeric sort key of the hold ordering: `a.position ?? 999999`. -/
def holdKey (t : Task) : Nat := t.position.getD 999999

/-- Comparator of the hold sort in `MMQ.tsx`:
`(a.position ?? 999999) - (b.position ?? 999999)` ascending. -/
def holdLe (a b : Task) : Bool := decide (holdKey a ≤ holdKey b)

/-- Memo `activeTasks` of `MMQ.tsx`: tasks with `active = true`, input order
kept. -/
def activeTasksOf (ts : List Task) : List Task := ts.filter (fun t => t.active)

/-- Memo `holdTasks` of `MMQ.tsx`: tasks with `active = false`, sorted
ascending by `position ?? 999999` with the stable array sort. -/
def holdTasksOf (ts : List Task) : List Task :=
  sortBy holdLe (ts.filter (fun t => !t.active))

/-- JavaScript `Array.prototype.findIndex`: index of the first match, `none`
standing for the sentinel -1. -/
def findIndex (p : α → Bool) : List α → Option Nat
  | [] => none
  | x :: xs => if p x then some 0 else (findIndex p xs).map (· + 1)

/-- JavaScript `splice(i, 1)`: drop the element at index `i`, identity when
`i` is out of range. -/
def removeAt : List α → Nat → List α
  | [], _ => []
  | _ :: xs, 0 => xs
  | x :: xs, n + 1 => x :: removeAt xs n

/-- JavaScript `splice(n, 0, a)`: insert `a` at index `n`, clamped to the end
of the list when `n` exceeds the length. -/
def insertAt (a : α) : List α → Nat → List α
  | [], _ => [a]
  | l, 0 => a :: l
  | x :: xs, n + 1 => x :: insertAt a xs n

/-- Function `arrayMove` of dnd-kit as used on drag end: remove the element at
index `i` and reinsert it at index `j`.  All call sites pass indices returned
by `findIndex`, hence in range; an out-of-range `i` is mapped to the identity.
-/
def arrayMove (l : List α) (i j : Nat) : List α :=
  match l.get? i with
  | none => l
  | some x => insertAt x (removeAt l i) j

/-- Embedding of `.map((task, index) => ({ ...task, position: index + 1 }))`,
with `n` the position assigned to the head. -/
def assignPositions : Nat → List Task → List Task
  | _, [] => []
  | n, t :: ts => { t with position := some n } :: assignPositions (n + 1) ts

/-- Queue payload of a successful fetch, mirroring `TaskResponse`: the task
collection plus the concurrency cap and the server-reported active count. -/
structure QueueData where
  tasks : List Task
  cap : Nat
  active_tasks : Nat
deriving DecidableEq

/-- State of one MMQ component instance after the initial load: the current
queue data, the task list captured at the last successful fetch
(`originalTasks`), the staged-reorder flag and the toast messages. -/
structure MMQState where
  data : QueueData
  originalTasks : List Task
  hasPendingReorder : Bool
  warningMessage : Option String
  successMessage : Option String
deriving DecidableEq

/-- Success branch of `fetchData`: the response replaces the data wholesale,
`originalTasks` is set to the fetched task list and the pending-reorder flag
is cleared. -/
def fetchSuccess (resp : QueueData) (s : MMQState) : MMQState :=
  { s with data := resp, originalTasks := resp.tasks, hasPendingReorder := false }

/-- Handler `handleDragEnd` of `MMQ.tsx`: nothing happens without a drop
target or when the dragged and target ids coincide; otherwise both ids are
looked up in the hold ordering and, when both are found, the hold list is
array-moved, positions are reassigned contiguously from 1, the unchanged
active tasks are prepended and the pending-reorder flag is set.  The handler
performs no network call. -/
def handleDragEnd (activeId : String) (over : Option String) (s : MMQState) : MMQState :=
  match over with
  | none => s
  | some overId =>
    if activeId == overId then s
    else
      let hold := holdTasksOf s.data.tasks
      match findIndex (fun t => t.task_id == activeId) hold,
            findIndex (fun t => t.task_id == overId) hold with
      | some oldIndex, some newIndex =>
        let updatedTasks := assignPositions 1 (arrayMove hold oldIndex newIndex)
        { s with
          data := { s.data with tasks := activeTasksOf s.data.tasks ++ updatedTasks },
          hasPendingReorder := true }
      | _, _ => s

/-- One entry of the reorder request body: `task_id`, `position`, `active`,
`status` for a hold task. -/
structure ReorderEntry where
  task_id : String
  position : Nat
  active : Bool
  status : String
deriving DecidableEq

/-- Payload built by `handleApplyReorder`: the hold tasks of the current data,
sorted by `position ?? 999999`, projected to reorder entries with
`position || 0`. -/
def reorderPayload (s : MMQState) : List ReorderEntry :=
  (sortBy holdLe (s.data.tasks.filter (fun t => !t.active))).map (fun t =>
    { task_id := t.task_id, position := t.position.getD 0,
      active := t.active, status := t.status })

/-- Handler `handleApplyReorder` of `MMQ.tsx`, given the outcome of the remote
reorder call.  On success the pending flag is cleared and a success toast is
shown (a bounded poll then starts, modelled by separate `fetchSuccess`
events).  On failure the task list is reverted to `originalTasks`, the
pending flag is cleared and the failure reason is surfaced as a warning. -/
def handleApplyReorder (result : Except String Unit) (s : MMQState) : MMQState :=
  match result with
  | .ok _ =>
    { s with successMessage := some "Tasks reordered successfully",
             hasPendingReorder := false }
  | .error reason =>
    { s with warningMessage := some reason,
             data := { s.data with tasks := s.originalTasks },
             hasPendingReorder := false }

/-- Normalized response of the play and pause endpoint. -/
structure PlayPauseResponse where
  status : String
  active : Bool
  due_date : Option String
  badge_color : Option String
deriving DecidableEq

/-- Handler `handleStatusUpdate` of `MMQ.tsx`, given the outcome of the remote
play or pause call.  The handler returns unchanged state when the task id is
absent (the source then issues no request at all).  On success only tasks
with the targeted id are patched from the response — `active` and `status`
always, `latest_due_date` and `status_pill_color` through the JavaScript
fallback `response_field || old_value` — and `active_tasks` is recomputed.
On failure only a warning is surfaced. -/
def handleStatusUpdate (taskId : String) (toActive : Bool)
    (result : Except String PlayPauseResponse) (s : MMQState) : MMQState :=
  match findIndex (fun t => t.task_id == taskId) s.data.tasks with
  | none => s
  | some _ =>
    match result with
    | .error e => { s with warningMessage := some e }
    | .ok r =>
      let updatedTasks := s.data.tasks.map (fun t =>
        if t.task_id == taskId then
          { t with
            active := r.active,
            status := r.status,
            latest_due_date := jsOrStr r.due_date t.latest_due_date,
            status_pill_color := jsOrStr r.badge_color t.status_pill_color }
        else t)
      { s with
        data := { s.data with
          tasks := updatedTasks,
          active_tasks := (updatedTasks.filter (fun t => t.active)).length },
        successMessage :=
          some (if toActive then "Task started successfully"
                else "Task paused successfully") }

/-- Gate `isPlayDisabled` of `TaskCard`: the task is shown in the Active group
with the on-hold status and the working count has reached
`cap || MIN_VISIBLE_TASKS`. -/
def isPlayDisabled (task : Task) (tasks : List Task) (cap : Nat) : Bool :=
  task.active && isTaskOnHold task &&
    decide (jsOrNat cap MIN_VISIBLE_TASKS ≤ countActiveWorkingTasks tasks)

/-- Observable outcome of a click on the play or pause button. -/
inductive PlayPauseOutcome
  | noop
  | capacityWarning
  | remoteCall (action : String)
deriving DecidableEq

/-- Handler `handlePlayPause` of `TaskCard`: ignored while a request is in
flight, rejected with the capacity warning toast (and no remote call) when
`isPlayDisabled`, otherwise the remote play or pause call is issued. -/
def handlePlayPause (task : Task) (tasks : List Task) (cap : Nat)
    (isPlayPauseLoading : Bool) : PlayPauseOutcome :=
  if isPlayPauseLoading then PlayPauseOutcome.noop
  else if isPlayDisabled task tasks cap then PlayPauseOutcome.capacityWarning
  else PlayPauseOutcome.remoteCall (if isTaskOnHold task then "play" else "pause")

/-- Admission predicate derived from the capacity clause of `isPlayDisabled`:
one more working task is admitted exactly when the gate is not saturated. -/
def canAdmitOneMore (tasks : List Task) (cap : Nat) : Bool :=
  !(decide (jsOrNat cap MIN_VISIBLE_TASKS ≤ countActiveWorkingTasks tasks))

/-- Pairs of the JavaScript `Map` built by `TaskGroup` from the snapshot:
`originalTasks.map((t, i) => [t.task_id, i])`. -/
def buildOrderMap : Nat → List Task → List (String × Nat)
  | _, [] => []
  | i, t :: ts => (t.task_id, i) :: buildOrderMap (i + 1) ts

/-- Lookup in a JavaScript `Map` built from a pair list: a later binding of
the same key overwrites an earlier one. -/
def mapGet : List (String × Nat) → String → Option Nat
  | [], _ => none
  | (k, v) :: rest, key =>
    match mapGet rest key with
    | some v' => some v'
    | none => if k == key then some v else none

/-- Lookup `taskOrder.get(task_id)` of `TaskGroup`. -/
def taskOrderGet (orig : List Task) (key : String) : Option Nat :=
  mapGet (buildOrderMap 0 orig) key

/-- Memo `sortedTasks` of `TaskGroup` for the Active group: the tasks sorted
by `(taskOrder.get(task_id) ?? 0)` ascending with the stable array sort. -/
def sortedActiveTasks (tasks orig : List Task) : List Task :=
  sortBy (fun a b =>
    decide ((taskOrderGet orig a.task_id).getD 0 ≤ (taskOrderGet orig b.task_id).getD 0)) tasks

/-- Index a task id had in the snapshot list, as the claim of `activeOrder`
reads it; the default for an id absent from the snapshot is immaterial under
the presence hypothesis of the theorem below. -/
def snapshotIdx (orig : List Task) (key : String) : Nat :=
  (findIndex (fun t => t.task_id == key) orig).getD orig.length

/-- Ordering stated by the claim of `activeOrder`: the Active subset sorted by
the index each task had in the authoritative snapshot. -/
def activeOrderSpec (tasks orig : List Task) : List Task :=
  sortBy (fun a b => decide (snapshotIdx orig a.task_id ≤ snapshotIdx orig b.task_id)) tasks

/-- Comparator stated by the claim of `holdOrder`: ascending by position with
a missing position treated as plus infinity. -/
def posLeSpec : Option Nat → Option Nat → Bool
  | none, none => true
  | none, some _ => false
  | some _, none => true
  | some a, some b => decide (a ≤ b)

/-- Ordering stated by the claim of `holdOrder`: the Hold subset stably sorted
ascending by position, missing positions last. -/
def holdOrderSpec (ts : List Task) : List Task :=
  sortBy (fun a b => posLeSpec a.position b.position) (ts.filter (fun t => !t.active))

/-- State of the polling controller of `usePolling`: whether an interval is
scheduled and the current value of `pollCountRef`.  The tick interval only
determines real-time spacing and does not enter the transition logic. -/
structure PollState where
  running : Bool
  count : Nat
deriving DecidableEq

/-- Controller state before `startPolling` is called. -/
def initPoll : PollState := { running := false, count := 0 }

/-- Function `stopPolling`: clear the interval and reset the tick counter. -/
def stopPolling (_s : PollState) : PollState := { running := false, count := 0 }

/-- Function `startPolling`: stop any existing polling, reset the counter and
schedule a new interval. -/
def startPolling (_s : PollState) : PollState := { running := true, count := 0 }

/-- Observable effects of one scheduled interval callback: whether `onPoll`
ran, whether its error was reported to `onError`, and whether `onComplete`
ran. -/
structure TickEffect where
  polled : Bool
  errorReported : Bool
  completed : Bool
deriving DecidableEq

/-- One firing of the interval callback of `usePolling`: nothing happens when
the interval has been cleared; otherwise the counter is incremented, `onPoll`
runs (an error is caught and reported, never rethrown), and when the counter
reaches `maxPolls` the controller stops itself and calls `onComplete`. -/
def intervalTick (maxPolls : Nat) (tickFails : Bool) (s : PollState) :
    PollState × TickEffect :=
  if s.running then
    let c := s.count + 1
    if maxPolls ≤ c then
      ({ running := false, count := 0 },
       { polled := true, errorReported := tickFails, completed := true })
    else
      ({ running := true, count := c },
       { polled := true, errorReported := tickFails, completed := false })
  else
    (s, { polled := false, errorReported := false, completed := false })

/-- External events driving the controller: an interval firing (with the
outcome of its `onPoll` call) or a `stopPolling` call. -/
inductive PollEvent
  | tick (fails : Bool)
  | stop
deriving DecidableEq

/-- One controller step. -/
def pollStep (maxPolls : Nat) (s : PollState) : PollEvent → PollState × TickEffect
  | PollEvent.tick f => intervalTick maxPolls f s
  | PollEvent.stop =>
    (stopPolling s, { polled := false, errorReported := false, completed := false })

/-- Run of the controller over a sequence of events, collecting the effect of
every step. -/
def pollRun (maxPolls : Nat) (s : PollState) : List PollEvent → PollState × List TickEffect
  | [] => (s, [])
  | e :: es =>
    let se := pollStep maxPolls s e
    let rest := pollRun maxPolls se.1 es
    (rest.1, se.2 :: rest.2)

/-- Number of `onPoll` invocations among the recorded effects. -/
def polledCount (effs : List TickEffect) : Nat := (effs.filter (fun e => e.polled)).length

/-- Number of `onComplete` invocations among the recorded effects. -/
def completedCount (effs : List TickEffect) : Nat :=
  (effs.filter (fun e => e.completed)).length

/-- Drag-end event as seen by the handler: the dragged task id and the drop
target id, `none` when the drag was released outside a droppable. -/
structure DragEvent where
  activeId : String
  over : Option String

/-- Staging of a sequence of drag-end events, each committed locally by
`handleDragEnd`. -/
def stageReorders (evs : List DragEvent) (s : MMQState) : MMQState :=
  evs.foldl (fun st e => handleDragEnd e.activeId e.over st) s

/-- Test fixture: a task with neutral field values. -/
def baseTask : Task :=
  { task_id := "t0", name := "Task", status := "open", active := false,
    active_status := false, position := none, latest_due_date := "",
    status_pill_color := "", total_time_tracked := 0 }

/-- Test fixture: an Active task that counts against the cap. -/
def workingTask (key : String) : Task :=
  { baseTask with task_id := key, active := true, active_status := true,
                  status := "in progress" }

/-- Test fixture: an Active task paused with the reserved on-hold status. -/
def holdActiveTask (key : String) : Task :=
  { baseTask with task_id := key, active := true, active_status := true,
                  status := "on hold" }

/-- Test fixture: a Hold-bucket task at a given position. -/
def queuedTask (key : String) (pos : Option Nat) : Task :=
  { baseTask with task_id := key, position := pos }

/-- Test fixture: a loaded component state with one working task and three
hold tasks whose positions are scrambled relative to input order. -/
def exReorderState : MMQState :=
  { data :=
      { tasks := [workingTask "w1", queuedTask "A" (some 3),
                  queuedTask "B" (some 1), queuedTask "C" (some 2)],
        cap := 2, active_tasks := 1 },
    originalTasks := [workingTask "w1", queuedTask "A" (some 3),
                      queuedTask "B" (some 1), queuedTask "C" (some 2)],
    hasPendingReorder := false,
    warningMessage := none,
    successMessage := none }

/-- Test fixture: a loaded component state with one working task and one
Hold-marked Active task. -/
def exStatusState : MMQState :=
  { data := { tasks := [workingTask "w1", holdActiveTask "h2"],
              cap := 2, active_tasks := 1 },
    originalTasks := [workingTask "w1", holdActiveTask "h2"],
    hasPendingReorder := false,
    warningMessage := none,
    successMessage := none }

/-- Test fixture: a successful play response carrying a new due date but no
badge color. -/
def exResp : PlayPauseResponse :=
  { status := "in progress", active := true,
    due_date := some "2031-01-01", badge_color := none }

theorem mem_insertBy {le : α → α → Bool} {x a : α} :
    ∀ {l : List α}, a ∈ insertBy le x l → a = x ∨ a ∈ l := by
  intro l
  induction l with
  | nil => simp [insertBy]
  | cons y ys ih =>
    simp only [insertBy]
    split
    · intro h
      rcases List.mem_cons.mp h with h | h
      · exact Or.inl h
      · exact Or.inr h
    · intro h
      rcases List.mem_cons.mp h with h | h
      · exact Or.inr (h ▸ List.mem_cons_self y ys)
      · rcases ih h with h | h
        · exact Or.inl h
        · exact Or.inr (List.mem_cons_of_mem y h)

theorem mem_sortBy {le : α → α → Bool} {a : α} :
    ∀ {l : List α}, a ∈ sortBy le l → a ∈ l := by
  intro l
  induction l with
  | nil => simp [sortBy]
  | cons x xs ih =>
    intro h
    rcases mem_insertBy h with h | h
    · exact h ▸ List.mem_cons_self x xs
    · exact List.mem_cons_of_mem x (ih h)

theorem insertBy_congr {le₁ le₂ : α → α → Bool} {x : α} :
    ∀ {l : List α}, (∀ b ∈ l, le₁ x b = le₂ x b) →
      insertBy le₁ x l = insertBy le₂ x l := by
  intro l
  induction l with
  | nil => intro _; rfl
  | cons y ys ih =>
    intro h
    simp only [insertBy, h y (List.mem_cons_self y ys)]
    split
    · rfl
    · rw [ih (fun b hb => h b (List.mem_cons_of_mem y hb))]

theorem sortBy_congr {le₁ le₂ : α → α → Bool} :
    ∀ {l : List α}, (∀ a ∈ l, ∀ b ∈ l, le₁ a b = le₂ a b) →
      sortBy le₁ l = sortBy le₂ l := by
  intro l
  induction l with
  | nil => intro _; rfl
  | cons x xs ih =>
    intro h
    simp only [sortBy]
    rw [ih (fun a ha b hb =>
      h a (List.mem_cons_of_mem x ha) b (List.mem_cons_of_mem x hb))]
    exact insertBy_congr (fun b hb =>
      h x (List.mem_cons_self x xs) b (List.mem_cons_of_mem x (mem_sortBy hb)))

theorem insertBy_perm (le : α → α → Bool) (x : α) :
    ∀ l : List α, (insertBy le x l).Perm (x :: l) := by
  intro l
  induction l with
  | nil => exact List.Perm.refl _
  | cons y ys ih =>
    simp only [insertBy]
    split
    · exact List.Perm.refl _
    · exact (List.Perm.cons y ih).trans (List.Perm.swap x y ys)

theorem sortBy_perm (le : α → α → Bool) :
    ∀ l : List α, (sortBy le l).Perm l := by
  intro l
  induction l with
  | nil => exact List.Perm.refl _
  | cons x xs ih =>
    exact (insertBy_perm le x (sortBy le xs)).trans (List.Perm.cons x ih)

theorem insertAt_perm (a : α) : ∀ (l : List α) (n : Nat),
    (insertAt a l n).Perm (a :: l) := by
  intro l
  induction l with
  | nil => intro n; cases n <;> exact List.Perm.refl _
  | cons x xs ih =>
    intro n
    cases n with
    | zero => exact List.Perm.refl _
    | succ m =>
      exact (List.Perm.cons x (ih m)).trans (List.Perm.swap a x xs)

theorem removeAt_perm {a : α} : ∀ {l : List α} {i : Nat},
    l.get? i = some a → (a :: removeAt l i).Perm l := by
  intro l
  induction l with
  | nil => intro i h; simp at h
  | cons x xs ih =>
    intro i h
    cases i with
    | zero =>
      simp only [List.get?] at h
      cases h
      exact List.Perm.refl _
    | succ m =>
      simp only [List.get?] at h
      exact (List.Perm.swap x a (removeAt xs m)).trans (List.Perm.cons x (ih h))

theorem arrayMove_perm {l : List α} {i : Nat} (j : Nat) {a : α}
    (h : l.get? i = some a) : (arrayMove l i j).Perm l := by
  unfold arrayMove
  rw [h]
  exact (insertAt_perm a (removeAt l i) j).trans (removeAt_perm h)

theorem assignPositions_map_position : ∀ (n : Nat) (l : List Task),
    (assignPositions n l).map (fun t => t.position) = (List.range' n l.length).map some := by
  intro n l
  induction l generalizing n with
  | nil => rfl
  | cons t ts ih => simp [assignPositions, List.range', ih]

theorem assignPositions_map_task_id : ∀ (n : Nat) (l : List Task),
    (assignPositions n l).map (fun t => t.task_id) = l.map (fun t => t.task_id) := by
  intro n l
  induction l generalizing n with
  | nil => rfl
  | cons t ts ih => simp [assignPositions, ih]

theorem assignPositions_active {l : List Task} (h : ∀ t ∈ l, t.active = false) :
    ∀ (n : Nat), ∀ t ∈ assignPositions n l, t.active = false := by
  induction l with
  | nil => intro n t ht; simp [assignPositions] at ht
  | cons u us ih =>
    intro n t ht
    rcases List.mem_cons.mp ht with h' | h'
    · subst h'
      exact h u (List.mem_cons_self u us)
    · exact ih (fun v hv => h v (List.mem_cons_of_mem u hv)) (n + 1) t h'

theorem assignPositions_length : ∀ (n : Nat) (l : List Task),
    (assignPositions n l).length = l.length := by
  intro n l
  induction l generalizing n with
  | nil => rfl
  | cons t ts ih => simp [assignPositions, ih]

theorem findIndex_lt_length {p : α → Bool} :
    ∀ {l : List α} {i : Nat}, findIndex p l = some i → i < l.length := by
  intro l
  induction l with
  | nil => intro i h; simp [findIndex] at h
  | cons x xs ih =>
    intro i h
    simp only [findIndex] at h
    split at h
    · cases h; simp
    · cases hr : findIndex p xs with
      | none => rw [hr] at h; simp at h
      | some k =>
        rw [hr] at h
        simp only [Option.map_some'] at h
        cases h
        simpa using ih hr

theorem findIndex_get? {p : α → Bool} :
    ∀ {l : List α} {i : Nat}, findIndex p l = some i →
      ∃ a, l.get? i = some a ∧ p a = true := by
  intro l
  induction l with
  | nil => intro i h; simp [findIndex] at h
  | cons x xs ih =>
    intro i h
    simp only [findIndex] at h
    split at h
    · cases h
      exact ⟨x, rfl, by assumption⟩
    · cases hr : findIndex p xs with
      | none => rw [hr] at h; simp at h
      | some k =>
        rw [hr] at h
        simp only [Option.map_some'] at h
        cases h
        exact ih hr

/-- C10: for every task list, `countActiveTasks` — the count behind the
Active-group header badge and the countdown-slot computation — returns the
number of tasks whose `active_status` flag is truthy, with no status excluded
(the configured exclusion list is empty); in particular a task whose status is
"on hold" still counts, so this displayed count can exceed the cap-accounting
working count. -/
theorem C10_active_count_ignores_status (tasks : List Task) :
    countActiveTasks tasks = (tasks.filter (fun t => t.active_status)).length ∧
    countActiveTasks [holdActiveTask "h1"] = 1 ∧
    countActiveWorkingTasks [holdActiveTask "h1"] = 0 ∧
    countActiveWorkingTasks [holdActiveTask "h1"] < countActiveTasks [holdActiveTask "h1"] := by
  refine ⟨?_, by decide, by decide, by decide⟩
  unfold countActiveTasks
  congr 1
  apply List.filter_congr
  intro t _
  cases h : t.active_status <;> simp [h, excludeStatuses]

/-- C9 counterexample: with two Hold tasks whose positions disagree with the
input order, the displayed Hold subset reverses the input order, so relative
input order is not preserved within the Hold partition. -/
theorem C9_counterexample :
    holdTasksOf [queuedTask "h1" (some 2), queuedTask "h2" (some 1)]
      = [queuedTask "h2" (some 1), queuedTask "h1" (some 2)] ∧
    List.filter (fun t => !t.active) [queuedTask "h1" (some 2), queuedTask "h2" (some 1)]
      = [queuedTask "h1" (some 2), queuedTask "h2" (some 1)] ∧
    queuedTask "h1" (some 2) ≠ queuedTask "h2" (some 1) := by
  decide

/-- C9 (amended): partitioning into Active and Hold is complete and disjoint —
the two subsets together contain every task exactly once and their sizes sum
to the input length; relative input order is preserved within the Active
subset, while the Hold subset is a permutation of the inactive tasks,
reordered ascending by position. -/
theorem C9_partition_complete (tasks : List Task) :
    (activeTasksOf tasks).Sublist tasks ∧
    (holdTasksOf tasks).Perm (tasks.filter (fun t => !t.active)) ∧
    ((activeTasksOf tasks) ++ (holdTasksOf tasks)).Perm tasks ∧
    (activeTasksOf tasks).length + (holdTasksOf tasks).length = tasks.length ∧
    (∀ t ∈ activeTasksOf tasks, t.active = true) ∧
    (∀ t ∈ holdTasksOf tasks, t.active = false) := by
  have hperm : (holdTasksOf tasks).Perm (tasks.filter (fun t => !t.active)) :=
    sortBy_perm holdLe _
  have happ : ((activeTasksOf tasks) ++ (holdTasksOf tasks)).Perm tasks := by
    have base := List.filter_append_perm (fun t => t.active) tasks
    have h2 : ((activeTasksOf tasks) ++ (holdTasksOf tasks)).Perm
        ((tasks.filter (fun t => t.active)) ++ (tasks.filter (fun t => !t.active))) := by
      unfold activeTasksOf
      exact (List.Perm.refl _).append hperm
    exact h2.trans base
  refine ⟨List.filter_sublist tasks, hperm, happ, ?_, ?_, ?_⟩
  · have := happ.length_eq
    simpa [List.length_append] using this
  · intro t ht
    exact (List.mem_filter.mp ht).2
  · intro t ht
    have := List.mem_filter.mp (mem_sortBy ht)
    simpa using this.2

/-- C4 counterexample: with cap 0 the gate falls back to the visible-task
minimum 10 and grants admission on the empty list although the claimed
criterion denies it, and with the sentinel cap 999 a list of 999 working
tasks is denied admission although the claim grants it for any task list. -/
theorem C4_counterexample :
    ¬ ((canAdmitOneMore ([] : List Task) 0 = true) ↔
        countActiveWorkingTasks ([] : List Task) < 0) ∧
    canAdmitOneMore (List.replicate 999 (workingTask "w")) 999 = false := by
  constructor
  · decide
  · unfold canAdmitOneMore countActiveWorkingTasks
    rw [List.filter_replicate]
    have hcond : ((workingTask "w").active && !(isTaskOnHold (workingTask "w"))) = true := by
      decide
    rw [hcond, if_pos rfl, List.length_replicate]
    decide

/-- C4 (amended): for every task list and every finite cap ≥ 1, admission of
one more working task is granted iff the working count is strictly below the
cap; the sentinel 999 is not special-cased by the gate, so with cap 999
admission is granted iff the working count is below 999 — in particular for
every task list of fewer than 999 tasks; with cap 0 the gate falls back to
the threshold `MIN_VISIBLE_TASKS = 10`. -/
theorem C4_admission_iff (tasks : List Task) (cap : Nat) (hcap : 1 ≤ cap) :
    ((canAdmitOneMore tasks cap = true) ↔ countActiveWorkingTasks tasks < cap) ∧
    (tasks.length < 999 → canAdmitOneMore tasks 999 = true) ∧
    ((canAdmitOneMore tasks 0 = true) ↔ countActiveWorkingTasks tasks < 10) := by
  refine ⟨?_, ?_, ?_⟩
  · unfold canAdmitOneMore jsOrNat
    rw [if_neg (by omega)]
    simp [Nat.not_le]
  · intro hlen
    have hcount : countActiveWorkingTasks tasks ≤ tasks.length :=
      List.length_filter_le _ _
    unfold canAdmitOneMore jsOrNat
    simp [Nat.not_le]
    omega
  · unfold canAdmitOneMore jsOrNat MIN_VISIBLE_TASKS
    simp [Nat.not_le]

/-- C4 witness: the amended admission criterion evaluated at a singleton list
of one working task and cap 2. -/
theorem C4_admission_iff_witness :
    (1 ≤ 2) ∧
    (((canAdmitOneMore [workingTask "w1"] 2 = true) ↔
        countActiveWorkingTasks [workingTask "w1"] < 2) ∧
      (([workingTask "w1"] : List Task).length < 999 →
        canAdmitOneMore [workingTask "w1"] 999 = true) ∧
      ((canAdmitOneMore [workingTask "w1"] 0 = true) ↔
        countActiveWorkingTasks [workingTask "w1"] < 10)) :=
  ⟨by decide, C4_admission_iff [workingTask "w1"] 2 (by decide)⟩

theorem handleDragEnd_originalTasks (a : String) (o : Option String) (s : MMQState) :
    (handleDragEnd a o s).originalTasks = s.originalTasks := by
  cases o with
  | none => rfl
  | some overId =>
    by_cases h : (a == overId) = true
    · simp [handleDragEnd, h]
    · simp only [handleDragEnd, h]
      cases hA : findIndex (fun t => t.task_id == a) (holdTasksOf s.data.tasks) with
      | none => simp [hA]
      | some i =>
        cases hB : findIndex (fun t => t.task_id == overId) (holdTasksOf s.data.tasks) with
        | none => simp [hA, hB]
        | some j => simp [hA, hB]

theorem stageReorders_originalTasks (evs : List DragEvent) (s : MMQState) :
    (stageReorders evs s).originalTasks = s.originalTasks := by
  induction evs generalizing s with
  | nil => rfl
  | cons e es ih =>
    unfold stageReorders at *
    rw [List.foldl_cons, ih, handleDragEnd_originalTasks]

/-- C1: after a successful load followed by any sequence of staged hold-bucket
reorders, a failing remote reorder submission reverts the task list to exactly
the task list held immediately after the load, clears the pending-mutation
flag and surfaces a warning carrying the failure reason — for every snapshot,
every sequence of staged reorders and every failing response. -/
theorem C1_reorder_failure_rolls_back (s0 : MMQState) (resp : QueueData)
    (evs : List DragEvent) (reason : String) :
    (handleApplyReorder (Except.error reason) (stageReorders evs (fetchSuccess resp s0))).data.tasks
      = (fetchSuccess resp s0).data.tasks ∧
    (handleApplyReorder (Except.error reason) (stageReorders evs (fetchSuccess resp s0))).data.tasks
      = resp.tasks ∧
    (handleApplyReorder (Except.error reason) (stageReorders evs (fetchSuccess resp s0))).hasPendingReorder
      = false ∧
    (handleApplyReorder (Except.error reason) (stageReorders evs (fetchSuccess resp s0))).warningMessage
      = some reason := by
  have h := stageReorders_originalTasks evs (fetchSuccess resp s0)
  refine ⟨?_, ?_, rfl, rfl⟩
  · show (stageReorders evs (fetchSuccess resp s0)).originalTasks = resp.tasks
    rw [h]
    rfl
  · show (stageReorders evs (fetchSuccess resp s0)).originalTasks = resp.tasks
    rw [h]
    rfl

theorem holdTasksOf_inactive {ts : List Task} :
    ∀ t ∈ holdTasksOf ts, t.active = false := by
  intro t ht
  have := List.mem_filter.mp (mem_sortBy ht)
  simpa using this.2

/-- C3: a drag-end reorder over the Hold bucket array-moves the hold ordering,
renumbers positions contiguously as 1..N, merges the unchanged Active tasks
back into the stored task list and sets the pending-mutation flag; it is a
no-op without a drop target, when the dragged and target ids coincide, or
when either id is not found in the Hold bucket.  The handler performs no
remote call (its entire effect is the returned local state). -/
theorem C3_drag_end_stages_reorder (s : MMQState) (activeId overId : String)
    (i j : Nat) (hne : activeId ≠ overId)
    (hi : findIndex (fun t => t.task_id == activeId) (holdTasksOf s.data.tasks) = some i)
    (hj : findIndex (fun t => t.task_id == overId) (holdTasksOf s.data.tasks) = some j) :
    (handleDragEnd activeId (some overId) s).hasPendingReorder = true ∧
    (handleDragEnd activeId (some overId) s).originalTasks = s.originalTasks ∧
    (handleDragEnd activeId (some overId) s).warningMessage = s.warningMessage ∧
    (handleDragEnd activeId (some overId) s).data.tasks.filter (fun t => t.active)
      = s.data.tasks.filter (fun t => t.active) ∧
    ((handleDragEnd activeId (some overId) s).data.tasks.filter (fun t => !t.active)).map
        (fun t => t.task_id)
      = (arrayMove (holdTasksOf s.data.tasks) i j).map (fun t => t.task_id) ∧
    ((arrayMove (holdTasksOf s.data.tasks) i j).map (fun t => t.task_id)).Perm
      ((holdTasksOf s.data.tasks).map (fun t => t.task_id)) ∧
    ((handleDragEnd activeId (some overId) s).data.tasks.filter (fun t => !t.active)).map
        (fun t => t.position)
      = (List.range' 1 (holdTasksOf s.data.tasks).length).map some ∧
    handleDragEnd activeId none s = s ∧
    (∀ aId, handleDragEnd aId (some aId) s = s) ∧
    (∀ aId oId, findIndex (fun t => t.task_id == aId) (holdTasksOf s.data.tasks) = none →
      handleDragEnd aId (some oId) s = s) ∧
    (∀ aId oId, findIndex (fun t => t.task_id == oId) (holdTasksOf s.data.tasks) = none →
      handleDragEnd aId (some oId) s = s) := by
  have hbe : (activeId == overId) = false := beq_eq_false_iff_ne.mpr hne
  have hred : handleDragEnd activeId (some overId) s =
      { s with
        data := { s.data with
                  tasks := activeTasksOf s.data.tasks ++
                    assignPositions 1 (arrayMove (holdTasksOf s.data.tasks) i j) },
        hasPendingReorder := true } := by
    simp only [handleDragEnd, hbe, hi, hj]
    rfl
  obtain ⟨t0, hget, _⟩ := findIndex_get? hi
  have hperm : (arrayMove (holdTasksOf s.data.tasks) i j).Perm (holdTasksOf s.data.tasks) :=
    arrayMove_perm j hget
  have hmove_inactive : ∀ t ∈ arrayMove (holdTasksOf s.data.tasks) i j, t.active = false :=
    fun t ht => holdTasksOf_inactive t (hperm.mem_iff.mp ht)
  have hassign_inactive :
      ∀ t ∈ assignPositions 1 (arrayMove (holdTasksOf s.data.tasks) i j), t.active = false :=
    assignPositions_active hmove_inactive 1
  have hfa : (activeTasksOf s.data.tasks ++
        assignPositions 1 (arrayMove (holdTasksOf s.data.tasks) i j)).filter (fun t => t.active)
      = s.data.tasks.filter (fun t => t.active) := by
    rw [List.filter_append]
    have h1 : (activeTasksOf s.data.tasks).filter (fun t => t.active)
        = activeTasksOf s.data.tasks :=
      List.filter_eq_self.mpr (fun t ht => (List.mem_filter.mp ht).2)
    have h2 : (assignPositions 1 (arrayMove (holdTasksOf s.data.tasks) i j)).filter
        (fun t => t.active) = [] := by
      apply List.filter_eq_nil_iff.mpr
      intro t ht
      simp [hassign_inactive t ht]
    rw [h1, h2, List.append_nil]
    rfl
  have hfh : (activeTasksOf s.data.tasks ++
        assignPositions 1 (arrayMove (holdTasksOf s.data.tasks) i j)).filter (fun t => !t.active)
      = assignPositions 1 (arrayMove (holdTasksOf s.data.tasks) i j) := by
    rw [List.filter_append]
    have h1 : (activeTasksOf s.data.tasks).filter (fun t => !t.active) = [] := by
      apply List.filter_eq_nil_iff.mpr
      intro t ht
      simp [(List.mem_filter.mp ht).2]
    have h2 : (assignPositions 1 (arrayMove (holdTasksOf s.data.tasks) i j)).filter
        (fun t => !t.active)
        = assignPositions 1 (arrayMove (holdTasksOf s.data.tasks) i j) :=
      List.filter_eq_self.mpr (fun t ht => by simp [hassign_inactive t ht])
    rw [h1, h2, List.nil_append]
  have hlen : (arrayMove (holdTasksOf s.data.tasks) i j).length
      = (holdTasksOf s.data.tasks).length := hperm.length_eq
  refine ⟨by rw [hred], by rw [hred], by rw [hred], ?_, ?_, hperm.map _, ?_, rfl, ?_, ?_, ?_⟩
  · rw [hred]
    exact hfa
  · rw [hred]
    show ((activeTasksOf s.data.tasks ++
        assignPositions 1 (arrayMove (holdTasksOf s.data.tasks) i j)).filter
          (fun t => !t.active)).map (fun t => t.task_id) = _
    rw [hfh, assignPositions_map_task_id]
  · rw [hred]
    show ((activeTasksOf s.data.tasks ++
        assignPositions 1 (arrayMove (holdTasksOf s.data.tasks) i j)).filter
          (fun t => !t.active)).map (fun t => t.position) = _
    rw [hfh, assignPositions_map_position, hlen]
  · intro aId
    simp [handleDragEnd]
  · intro aId oId hnone
    by_cases h : (aId == oId) = true
    · simp [handleDragEnd, h]
    · simp only [handleDragEnd, h]
      cases hB : findIndex (fun t => t.task_id == oId) (holdTasksOf s.data.tasks) with
      | none => simp [hnone, hB]
      | some k => simp [hnone, hB]
  · intro aId oId hnone
    by_cases h : (aId == oId) = true
    · simp [handleDragEnd, h]
    · simp only [handleDragEnd, h]
      cases hA : findIndex (fun t => t.task_id == aId) (holdTasksOf s.data.tasks) with
      | none => simp [hA, hnone]
      | some k => simp [hA, hnone]

/-- C3 witness: on the fixture state the hold bucket [B(1), C(2), A(3)], after
dragging B onto A, becomes C, A, B with positions 1, 2, 3 and the pending
flag set. -/
theorem C3_drag_end_stages_reorder_witness :
    ("B" ≠ "A") ∧
    (handleDragEnd "B" (some "A") exReorderState).hasPendingReorder = true ∧
    ((handleDragEnd "B" (some "A") exReorderState).data.tasks.filter (fun t => !t.active)).map
        (fun t => t.task_id) = ["C", "A", "B"] ∧
    ((handleDragEnd "B" (some "A") exReorderState).data.tasks.filter (fun t => !t.active)).map
        (fun t => t.position) = [some 1, some 2, some 3] := by
  have h := C3_drag_end_stages_reorder exReorderState "B" "A" 0 2
    (by decide) (by decide) (by decide)
  refine ⟨by decide, h.1, ?_, ?_⟩
  · rw [h.2.2.2.2.1]
    decide
  · rw [h.2.2.2.2.2.2.1]
    decide

/-- C2 counterexample: with cap 0 (a finite cap), an empty working set already
satisfies "working count at least cap", yet the play click on a Hold-marked
Active task issues the remote play call instead of the capacity warning,
because the gate replaces cap 0 by the fallback threshold 10. -/
theorem C2_counterexample :
    (holdActiveTask "h1").active = true ∧
    isTaskOnHold (holdActiveTask "h1") = true ∧
    0 ≤ countActiveWorkingTasks ([] : List Task) ∧
    handlePlayPause (holdActiveTask "h1") [] 0 false
      = PlayPauseOutcome.remoteCall "play" := by
  decide

/-- C2 (amended): for every task list and every finite cap ≥ 1, attempting to
play an Active task whose status is on hold while the working count is at
least the cap makes no remote play call and surfaces the capacity warning. -/
theorem C2_gate_blocks_play (task : Task) (tasks : List Task) (cap : Nat)
    (hcap : 1 ≤ cap) (hactive : task.active = true)
    (hhold : isTaskOnHold task = true)
    (hcount : cap ≤ countActiveWorkingTasks tasks) :
    handlePlayPause task tasks cap false = PlayPauseOutcome.capacityWarning := by
  have hd : isPlayDisabled task tasks cap = true := by
    unfold isPlayDisabled jsOrNat
    rw [hactive, hhold, if_neg (by omega)]
    simpa using hcount
  simp [handlePlayPause, hd]

/-- C2 witness: the particular scenario of the claim — cap 2, two working
Active tasks and one Hold-marked Active task — is rejected locally with the
capacity warning. -/
theorem C2_gate_blocks_play_witness :
    (1 ≤ 2) ∧
    handlePlayPause (holdActiveTask "h3")
        [workingTask "w1", workingTask "w2", holdActiveTask "h3"] 2 false
      = PlayPauseOutcome.capacityWarning :=
  ⟨by decide,
    C2_gate_blocks_play (holdActiveTask "h3")
      [workingTask "w1", workingTask "w2", holdActiveTask "h3"] 2
      (by decide) (by decide) (by decide) (by decide)⟩

/-- C8: given the targeted task exists, a remote play or pause success patches
only tasks bearing the targeted id — `active` and `status` from the response,
`latest_due_date` and `status_pill_color` only when the response carries them
— recomputes the active task count from the patched list, and leaves every
other task unchanged at its index; a remote failure leaves the task list
entirely untouched and only surfaces the failure reason. -/
theorem C8_status_update_frame (s : MMQState) (taskId : String) (toActive : Bool)
    (r : PlayPauseResponse) (e : String) (k : Nat)
    (hfound : findIndex (fun t => t.task_id == taskId) s.data.tasks = some k) :
    (handleStatusUpdate taskId toActive (Except.error e) s).data.tasks = s.data.tasks ∧
    (handleStatusUpdate taskId toActive (Except.error e) s).warningMessage = some e ∧
    (handleStatusUpdate taskId toActive (Except.ok r) s).data.tasks.length
      = s.data.tasks.length ∧
    (∀ n t, s.data.tasks.get? n = some t → t.task_id ≠ taskId →
      (handleStatusUpdate taskId toActive (Except.ok r) s).data.tasks.get? n = some t) ∧
    (∀ n t, s.data.tasks.get? n = some t → t.task_id = taskId →
      (handleStatusUpdate taskId toActive (Except.ok r) s).data.tasks.get? n
        = some { t with active := r.active, status := r.status,
                        latest_due_date := jsOrStr r.due_date t.latest_due_date,
                        status_pill_color := jsOrStr r.badge_color t.status_pill_color }) ∧
    (handleStatusUpdate taskId toActive (Except.ok r) s).data.active_tasks
      = ((handleStatusUpdate taskId toActive (Except.ok r) s).data.tasks.filter
          (fun t => t.active)).length := by
  have herr : handleStatusUpdate taskId toActive (Except.error e) s
      = { s with warningMessage := some e } := by
    simp only [handleStatusUpdate, hfound]
  have hok : handleStatusUpdate taskId toActive (Except.ok r) s =
      { s with
        data := { s.data with
                  tasks := s.data.tasks.map (fun t =>
                    if t.task_id == taskId then
                      { t with active := r.active, status := r.status,
                               latest_due_date := jsOrStr r.due_date t.latest_due_date,
                               status_pill_color := jsOrStr r.badge_color t.status_pill_color }
                    else t),
                  active_tasks := ((s.data.tasks.map (fun t =>
                    if t.task_id == taskId then
                      { t with active := r.active, status := r.status,
                               latest_due_date := jsOrStr r.due_date t.latest_due_date,
                               status_pill_color := jsOrStr r.badge_color t.status_pill_color }
                    else t)).filter (fun t => t.active)).length },
        successMessage := some (if toActive then "Task started successfully"
                                else "Task paused successfully") } := by
    simp only [handleStatusUpdate, hfound]
  refine ⟨by rw [herr], by rw [herr], ?_, ?_, ?_, ?_⟩
  · rw [hok]
    exact List.length_map _ _
  · intro n t hget hne
    rw [hok]
    show (s.data.tasks.map _).get? n = some t
    rw [List.get?_map, hget]
    have hb : (t.task_id == taskId) = false := beq_eq_false_iff_ne.mpr hne
    simp only [Option.map_some']
    rw [if_neg (by simp [hb])]
  · intro n t hget heq
    rw [hok]
    show (s.data.tasks.map _).get? n = some _
    rw [List.get?_map, hget]
    have hb : (t.task_id == taskId) = true := beq_iff_eq.mpr heq
    simp only [Option.map_some']
    rw [if_pos hb]
  · rw [hok]

/-- C8 witness: on the fixture state, a failing play call leaves the task list
unchanged, and a successful play on the second task leaves the first task
unchanged and patches the second from the response. -/
theorem C8_status_update_frame_witness :
    (findIndex (fun t => t.task_id == "h2") exStatusState.data.tasks = some 1) ∧
    (handleStatusUpdate "h2" true (Except.error "remote rejected") exStatusState).data.tasks
      = exStatusState.data.tasks ∧
    (handleStatusUpdate "h2" true (Except.ok exResp) exStatusState).data.tasks.get? 0
      = some (workingTask "w1") ∧
    (handleStatusUpdate "h2" true (Except.ok exResp) exStatusState).data.tasks.get? 1
      = some { holdActiveTask "h2" with
               active := true, status := "in progress",
               latest_due_date := "2031-01-01",
               status_pill_color := jsOrStr none (holdActiveTask "h2").status_pill_color } := by
  have h := C8_status_update_frame exStatusState "h2" true exResp "remote rejected" 1 (by decide)
  refine ⟨by decide, h.1, ?_, ?_⟩
  · exact h.2.2.2.1 0 (workingTask "w1") (by decide) (by decide)
  · have := h.2.2.2.2.1 1 (holdActiveTask "h2") (by decide) (by decide)
    simpa [exResp] using this

/-- C6 counterexample: a present position of 1000000 sorts after the sentinel
999999 used for a missing position, so a task with no position does not sort
last, contradicting the claimed treatment of missing positions as plus
infinity. -/
theorem C6_counterexample :
    holdTasksOf [queuedTask "A" (some 1000000), queuedTask "B" none]
      ≠ holdOrderSpec [queuedTask "A" (some 1000000), queuedTask "B" none] ∧
    holdTasksOf [queuedTask "A" (some 1000000), queuedTask "B" none]
      = [queuedTask "B" none, queuedTask "A" (some 1000000)] ∧
    holdOrderSpec [queuedTask "A" (some 1000000), queuedTask "B" none]
      = [queuedTask "A" (some 1000000), queuedTask "B" none] := by
  decide

/-- C6 (amended): the displayed Hold ordering is the Hold subset stably sorted
ascending by position with a missing position treated as the numeric sentinel
999999 rather than plus infinity; whenever every present position is below
999999 — in particular for every queue whose positions are the contiguous
ranks 1..N with N < 999999 — this coincides with the claimed ordering in
which missing positions sort last. -/
theorem C6_hold_order (tasks : List Task)
    (h : ∀ t ∈ tasks, t.position.getD 0 < 999999) :
    holdTasksOf tasks = holdOrderSpec tasks := by
  unfold holdTasksOf holdOrderSpec
  apply sortBy_congr
  intro a ha b hb
  have hpa : a.position.getD 0 < 999999 := h a (List.mem_of_mem_filter ha)
  have hpb : b.position.getD 0 < 999999 := h b (List.mem_of_mem_filter hb)
  simp only [holdLe, holdKey]
  obtain hA | ⟨p, hA⟩ := Option.eq_none_or_eq_some a.position
  · obtain hB | ⟨q, hB⟩ := Option.eq_none_or_eq_some b.position
    · simp only [hA, hB]
      simp [posLeSpec]
    · rw [hB, Option.getD_some] at hpb
      simp only [hA, hB]
      simp [posLeSpec]
      omega
  · rw [hA, Option.getD_some] at hpa
    obtain hB | ⟨q, hB⟩ := Option.eq_none_or_eq_some b.position
    · simp only [hA, hB]
      simp [posLeSpec]
      omega
    · simp only [hA, hB]
      simp [posLeSpec]

/-- C6 witness: on a hold list with positions 2, missing, 1 the code ordering
and the claimed ordering agree. -/
theorem C6_hold_order_witness :
    (∀ t ∈ [queuedTask "A" (some 2), queuedTask "B" none, queuedTask "C" (some 1)],
      t.position.getD 0 < 999999) ∧
    holdTasksOf [queuedTask "A" (some 2), queuedTask "B" none, queuedTask "C" (some 1)]
      = holdOrderSpec [queuedTask "A" (some 2), queuedTask "B" none, queuedTask "C" (some 1)] :=
  ⟨by decide, C6_hold_order _ (by decide)⟩

theorem mapGet_buildOrderMap (key : String) :
    ∀ (orig : List Task) (n : Nat), ((orig.map (fun t => t.task_id)).Nodup) →
      mapGet (buildOrderMap n orig) key
        = (findIndex (fun t => t.task_id == key) orig).map (· + n) := by
  intro orig
  induction orig with
  | nil => intro n _; rfl
  | cons t ts ih =>
    intro n hnd
    rw [List.map_cons, List.nodup_cons] at hnd
    obtain ⟨hni, hnd'⟩ := hnd
    simp only [buildOrderMap, mapGet, findIndex]
    rw [ih (n + 1) hnd']
    cases hf : findIndex (fun u => u.task_id == key) ts with
    | none =>
      simp only [Option.map_none']
      by_cases hk : (t.task_id == key) = true
      · simp [hk]
      · simp [hk]
    | some m =>
      simp only [Option.map_some']
      obtain ⟨u, hu, hpu⟩ := findIndex_get? hf
      have hmem : u ∈ ts := List.get?_mem hu
      have hkey : u.task_id = key := by simpa using hpu
      have hk : (t.task_id == key) = false := by
        apply beq_eq_false_iff_ne.mpr
        intro hEq
        have : t.task_id ∈ ts.map (fun v => v.task_id) :=
          List.mem_map.mpr ⟨u, hmem, by rw [hkey, hEq]⟩
        exact absurd this hni
      simp only [hk, if_false, Option.map_some']
      simp
      omega

theorem findIndex_of_mem {p : α → Bool} :
    ∀ {l : List α}, (∃ u ∈ l, p u = true) → ∃ k, findIndex p l = some k := by
  intro l
  induction l with
  | nil =>
    rintro ⟨u, hu, _⟩
    simp at hu
  | cons x xs ih =>
    rintro ⟨u, hu, hpu⟩
    by_cases hx : p x = true
    · exact ⟨0, by simp [findIndex, hx]⟩
    · rcases List.mem_cons.mp hu with h | h
      · subst h
        exact absurd hpu hx
      · obtain ⟨k, hk⟩ := ih ⟨u, h, hpu⟩
        exact ⟨k + 1, by simp [findIndex, hx, hk]⟩

/-- C7: for a snapshot with unique task ids containing every displayed task,
the displayed Active ordering — the stable sort by the index looked up in the
Map built from the snapshot — equals the Active subset sorted by the index
each task had in the last fetched snapshot task list, so server-driven
promotions from Hold to Active appear in server-assigned order. -/
theorem C7_active_order_tracks_snapshot (tasks orig : List Task)
    (hnd : (orig.map (fun t => t.task_id)).Nodup)
    (hmem : ∀ t ∈ tasks, ∃ u ∈ orig, u.task_id = t.task_id) :
    sortedActiveTasks tasks orig = activeOrderSpec tasks orig := by
  have hkey : ∀ t ∈ tasks,
      (taskOrderGet orig t.task_id).getD 0 = snapshotIdx orig t.task_id := by
    intro t ht
    obtain ⟨u, hu, hid⟩ := hmem t ht
    obtain ⟨k, hk⟩ := findIndex_of_mem (p := fun v => v.task_id == t.task_id)
      ⟨u, hu, by simpa using hid⟩
    unfold taskOrderGet snapshotIdx
    rw [mapGet_buildOrderMap t.task_id orig 0 hnd, hk]
    simp
  unfold sortedActiveTasks activeOrderSpec
  apply sortBy_congr
  intro a ha b hb
  rw [hkey a ha, hkey b hb]

/-- C7 witness: a snapshot [w1, A, w2] with unique ids and the Active subset
presented as [w2, w1] is displayed in snapshot order by both the code
ordering and the claimed ordering. -/
theorem C7_active_order_tracks_snapshot_witness :
    (([workingTask "w1", queuedTask "A" (some 1), workingTask "w2"].map
        (fun t => t.task_id)).Nodup) ∧
    (∀ t ∈ [workingTask "w2", workingTask "w1"],
      ∃ u ∈ [workingTask "w1", queuedTask "A" (some 1), workingTask "w2"],
        u.task_id = t.task_id) ∧
    sortedActiveTasks [workingTask "w2", workingTask "w1"]
        [workingTask "w1", queuedTask "A" (some 1), workingTask "w2"]
      = activeOrderSpec [workingTask "w2", workingTask "w1"]
        [workingTask "w1", queuedTask "A" (some 1), workingTask "w2"] :=
  ⟨by decide, by decide,
    C7_active_order_tracks_snapshot _ _ (by decide) (by decide)⟩

theorem polledCount_no_polls (effs : List TickEffect)
    (h : ∀ e ∈ effs, e.polled = false) : polledCount effs = 0 := by
  unfold polledCount
  rw [List.filter_eq_nil_iff.mpr (by intro e he; simp [h e he])]
  rfl

theorem pollRun_ticks_stopped (m : Nat) (s : PollState) (h : s.running = false) :
    ∀ flags : List Bool,
      pollRun m s (flags.map PollEvent.tick)
        = (s, flags.map (fun _ =>
            ({ polled := false, errorReported := false, completed := false } : TickEffect))) := by
  intro flags
  induction flags with
  | nil => rfl
  | cons f fs ih =>
    simp [pollRun, pollStep, intervalTick, h, ih]

theorem pollRun_append (m : Nat) (l₁ l₂ : List PollEvent) :
    ∀ s : PollState,
      pollRun m s (l₁ ++ l₂)
        = ((pollRun m (pollRun m s l₁).1 l₂).1,
           (pollRun m s l₁).2 ++ (pollRun m (pollRun m s l₁).1 l₂).2) := by
  induction l₁ with
  | nil => intro s; rfl
  | cons e es ih =>
    intro s
    simp [pollRun, ih]

theorem pollRun_ticks_running (m : Nat) :
    ∀ (flags : List Bool) (k : Nat), k < m →
      (pollRun m { running := true, count := k } (flags.map PollEvent.tick)).1
        = (if k + flags.length < m then { running := true, count := k + flags.length }
           else { running := false, count := 0 } : PollState) ∧
      polledCount (pollRun m { running := true, count := k } (flags.map PollEvent.tick)).2
        = min flags.length (m - k) ∧
      completedCount (pollRun m { running := true, count := k } (flags.map PollEvent.tick)).2
        = (if m ≤ k + flags.length then 1 else 0) ∧
      (((pollRun m { running := true, count := k } (flags.map PollEvent.tick)).2.filter
          (fun e => e.polled)).map (fun e => e.errorReported))
        = flags.take (m - k) := by
  intro flags
  induction flags with
  | nil =>
    intro k hk
    refine ⟨by simp [pollRun, hk], by simp [pollRun, polledCount], ?_, by simp [pollRun]⟩
    simp only [List.map_nil, pollRun, completedCount, List.filter_nil,
      List.length_nil, List.length_cons]
    rw [if_neg (by omega)]
  | cons f fs ih =>
    intro k hk
    by_cases hstop : m ≤ k + 1
    · have hstep : pollRun m { running := true, count := k }
          ((f :: fs).map PollEvent.tick)
          = (({ running := false, count := 0 } : PollState),
             ({ polled := true, errorReported := f, completed := true } : TickEffect)
               :: fs.map (fun _ =>
                 ({ polled := false, errorReported := false,
                    completed := false } : TickEffect))) := by
        simp only [List.map_cons, pollRun, pollStep, intervalTick, if_true]
        rw [if_pos hstop, pollRun_ticks_stopped m _ rfl]
      rw [hstep]
      have hfilp : (fs.map (fun _ =>
          ({ polled := false, errorReported := false,
             completed := false } : TickEffect))).filter (fun e => e.polled) = [] := by
        apply List.filter_eq_nil_iff.mpr
        intro e he
        obtain ⟨x, _, rfl⟩ := List.mem_map.mp he
        simp
      have hfilc : (fs.map (fun _ =>
          ({ polled := false, errorReported := false,
             completed := false } : TickEffect))).filter (fun e => e.completed) = [] := by
        apply List.filter_eq_nil_iff.mpr
        intro e he
        obtain ⟨x, _, rfl⟩ := List.mem_map.mp he
        simp
      refine ⟨?_, ?_, ?_, ?_⟩
      · simp only [List.length_cons]
        rw [if_neg (by omega)]
      · simp [polledCount, List.filter_cons, hfilp]
        omega
      · simp [completedCount, List.filter_cons, hfilc]
        rw [if_pos (by omega)]
      · rw [show m - k = 1 from by omega]
        simp [List.filter_cons, hfilp]
    · have hk1 : k + 1 < m := by omega
      have hstep : pollRun m { running := true, count := k }
          ((f :: fs).map PollEvent.tick)
          = ((pollRun m { running := true, count := k + 1 } (fs.map PollEvent.tick)).1,
             ({ polled := true, errorReported := f, completed := false } : TickEffect)
               :: (pollRun m { running := true, count := k + 1 } (fs.map PollEvent.tick)).2) := by
        simp only [List.map_cons, pollRun, pollStep, intervalTick, if_true]
        rw [if_neg hstop]
      obtain ⟨ih1, ih2, ih3, ih4⟩ := ih (k + 1) hk1
      rw [hstep]
      refine ⟨?_, ?_, ?_, ?_⟩
      · rw [ih1]
        simp only [List.length_cons]
        simp only [show k + 1 + fs.length = k + (fs.length + 1) from by omega]
      · have hcons : polledCount
            (({ polled := true, errorReported := f, completed := false } : TickEffect)
              :: (pollRun m { running := true, count := k + 1 } (fs.map PollEvent.tick)).2)
            = 1 + polledCount
                (pollRun m { running := true, count := k + 1 } (fs.map PollEvent.tick)).2 := by
          simp [polledCount, List.filter_cons, Nat.add_comm]
        rw [hcons, ih2]
        simp only [List.length_cons]
        omega
      · have hcons : completedCount
            (({ polled := true, errorReported := f, completed := false } : TickEffect)
              :: (pollRun m { running := true, count := k + 1 } (fs.map PollEvent.tick)).2)
            = completedCount
                (pollRun m { running := true, count := k + 1 } (fs.map PollEvent.tick)).2 := by
          simp [completedCount, List.filter_cons]
        rw [hcons, ih3]
        simp only [List.length_cons]
        simp only [show k + 1 + fs.length = k + (fs.length + 1) from by omega]
      · rw [show m - k = (m - (k + 1)) + 1 from by omega, List.take_succ_cons]
        simp [List.filter_cons, ih4]

/-- C5: with maxPolls 10 (the configuration used after mutations, interval
2000 ms), the controller invokes `onPoll` exactly min(n, 10) times over any n
interval firings — so at most 10 — regardless of which ticks error; after the
10th invocation it has stopped itself and has invoked `onComplete` exactly
once; every polled tick reports its error outcome to the error callback and
an erroring tick never stops polling early; and a `stopPolling` call prevents
every later tick — in particular a stop after 3 ticks prevents ticks 4
through 10. -/
theorem C5_polling_bounded (flags post : List Bool) :
    polledCount (pollRun 10 (startPolling initPoll) (flags.map PollEvent.tick)).2
      = min flags.length 10 ∧
    (10 ≤ flags.length →
      (pollRun 10 (startPolling initPoll) (flags.map PollEvent.tick)).1.running = false ∧
      completedCount (pollRun 10 (startPolling initPoll) (flags.map PollEvent.tick)).2 = 1) ∧
    (((pollRun 10 (startPolling initPoll) (flags.map PollEvent.tick)).2.filter
        (fun e => e.polled)).map (fun e => e.errorReported)) = flags.take 10 ∧
    polledCount (pollRun 10 (startPolling initPoll)
        (flags.map PollEvent.tick ++ PollEvent.stop :: post.map PollEvent.tick)).2
      = min flags.length 10 := by
  have hrun := pollRun_ticks_running 10 flags 0 (by omega)
  obtain ⟨h1, h2, h3, h4⟩ := hrun
  have hstart : startPolling initPoll = { running := true, count := 0 } := rfl
  refine ⟨?_, ?_, ?_, ?_⟩
  · rw [hstart, h2]
  · intro hlen
    constructor
    · rw [hstart, h1, if_neg (by omega)]
    · rw [hstart, h3, if_pos (by omega)]
  · rw [hstart, h4]
  · rw [hstart, pollRun_append]
    have hafter : pollRun 10
        ((pollRun 10 { running := true, count := 0 } (flags.map PollEvent.tick)).1)
        (PollEvent.stop :: post.map PollEvent.tick)
        = (({ running := false, count := 0 } : PollState),
           ({ polled := false, errorReported := false, completed := false } : TickEffect)
             :: post.map (fun _ =>
               ({ polled := false, errorReported := false,
                  completed := false } : TickEffect))) := by
      simp only [pollRun, pollStep, stopPolling]
      rw [pollRun_ticks_stopped 10 _ rfl]
    rw [hafter]
    unfold polledCount
    rw [List.filter_append, List.length_append]
    have hz : (({ polled := false, errorReported := false, completed := false } : TickEffect)
        :: post.map (fun _ =>
          ({ polled := false, errorReported := false,
             completed := false } : TickEffect))).filter (fun e => e.polled) = [] := by
      apply List.filter_eq_nil_iff.mpr
      intro e he
      rcases List.mem_cons.mp he with h | h
      · subst h; simp
      · obtain ⟨x, _, rfl⟩ := List.mem_map.mp h
        simp
    rw [hz]
    show polledCount (pollRun 10 { running := true, count := 0 }
        (flags.map PollEvent.tick)).2 + ([] : List TickEffect).length = min flags.length 10
    rw [h2]
    simp

/-- C5 witness: twelve scheduled firings with every tick erroring still yield
exactly 10 `onPoll` calls and a stopped controller with one completion, and a
stop after 3 ticks keeps the count at 3 despite 9 more firings. -/
theorem C5_polling_bounded_witness :
    polledCount (pollRun 10 (startPolling initPoll)
        ((List.replicate 12 true).map PollEvent.tick)).2 = 10 ∧
    (10 ≤ (List.replicate 12 true).length ∧
      (pollRun 10 (startPolling initPoll)
          ((List.replicate 12 true).map PollEvent.tick)).1.running = false) ∧
    polledCount (pollRun 10 (startPolling initPoll)
        ((List.replicate 3 false).map PollEvent.tick ++
          PollEvent.stop :: (List.replicate 9 false).map PollEvent.tick)).2 = 3 := by
  have h12 := C5_polling_bounded (List.replicate 12 true) []
  have h3 := C5_polling_bounded (List.replicate 3 false) (List.replicate 9 false)
  refine ⟨?_, ⟨by decide, ?_⟩, ?_⟩
  · rw [h12.1]
    decide
  · exact (h12.2.1 (by decide)).1
  · rw [h3.2.2.2]
    decide

end MMQ
